import Mathlib

/-!
Verification development for the proftool profile decoder
(`mx_proftool.py`): a shallow embedding of the region model
(`CompiledCodeInfo`), the perf sample decoder and merger (`PerfOutput`),
the code index and lookup (`GeneratedAssembly`), event attribution and
hot-region extraction, together with theorems settling the frozen claims.

Modelling conventions:
* Python's unbounded integers are `Nat`/`Int`; byte strings are `List Nat`.
* Timestamps (Python floats built from exact decimal text or from
  `sec + nsec/1e9`) are modelled as exact rationals `ℚ`; every operation on
  them in the source is an order comparison, which is the same for any
  linear order.
* Python `dict`s are insertion-ordered association lists; updating an
  existing key updates the entry in place, a new key is appended.  Object
  identity of regions (regions are shared between `code_info`, the bucket
  map and `code_by_address`, and are mutated through any alias) is
  modelled by storing positions into `code_info` in the bucket map and in
  `code_by_address`.
* Python truthiness tests (`if not begin`, `if not self.low_address`,
  `if not self.map`) are modelled explicitly: `None` and `0` (and an
  empty dict) are falsy.
* Fallible code returns `Except String`; an uncaught Python exception
  (`KeyError`, `ValueError`, `AssertionError`, `IndexError`) is an
  `Except.error`.
-/

/-- Python truthiness of an optional integer: `None` and `0` are falsy. -/
def pyTruthyNat : Option Nat → Bool
  | none => false
  | some n => n != 0

/-- First value of an association list whose key equals `k`
(Python `dict.get`). -/
def lookupAssoc {α : Type} (m : List (Nat × α)) (k : Nat) : Option α :=
  (m.find? fun p => p.1 == k).map Prod.snd

/-- `d[k] = v` on an insertion-ordered dict: replace the entry if the key
exists, otherwise append it. -/
def dictSet {α : Type} (m : List (Nat × α)) (k : Nat) (v : α) : List (Nat × α) :=
  match m with
  | [] => [(k, v)]
  | p :: ps => if p.1 == k then (k, v) :: ps else p :: dictSet ps k v

/-- A Java method decoded from the JVMTI assembly dump
(`Method`).  The JVM descriptor decoding performed by `Method.__init__`
produces these already-formatted fields; no claim concerns the descriptor
decoding itself, so records carry decoded methods. -/
structure Method where
  class_signature : String
  name : String
  method_arguments : String
  return_type : String
  source_file : String
  line_number_table : List (Nat × Int)
  deriving DecidableEq, Inhabited

/-- `Method.format_name` from the source. -/
def Method.format_name (m : Method) (with_arguments : Bool := true) : String :=
  m.class_signature ++ "." ++ m.name ++ (if with_arguments then m.method_arguments else "")

/-- One inlined frame of a debug-info program point (`DebugFrame`). -/
structure DebugFrame where
  method : Method
  bci : Int
  deriving DecidableEq, Inhabited

/-- One program point of a region with its inlined stack (`DebugInfo`). -/
structure DebugInfo where
  pc : Nat
  frames : List DebugFrame
  deriving DecidableEq, Inhabited

/-- One recorded perf event (`PerfEvent`).  `samples` is the `count`
field, set to `1` by `PerfEvent.__init__`. -/
structure PerfEvent where
  timestamp : ℚ
  events : String
  period : Nat
  pc : Nat
  symbol : String
  dso : String
  samples : Nat := 1
  deriving DecidableEq, Inhabited

/-- A generated chunk of HotSpot assembly plus metadata
(`CompiledCodeInfo`).  `generated` is the stub flag (`is_stub`),
`timestamp` is the load timestamp and `unload_time` is `None` while the
region is live. -/
structure CompiledCodeInfo where
  name : String
  timestamp : ℚ
  code_addr : Nat
  code_size : Nat
  code : List Nat
  generated : Bool
  debug_info : Option (List DebugInfo) := none
  methods : Option (List Method) := none
  unload_time : Option ℚ := none
  events : List PerfEvent := []
  total_period : Nat := 0
  total_samples : Nat := 0
  deriving DecidableEq, Inhabited

/-- `CompiledCodeInfo.set_unload_time`. -/
def CompiledCodeInfo.set_unload_time (c : CompiledCodeInfo) (t : ℚ) : CompiledCodeInfo :=
  { c with unload_time := some t }

/-- `CompiledCodeInfo.code_begin`. -/
def CompiledCodeInfo.code_begin (c : CompiledCodeInfo) : Nat :=
  c.code_addr

/-- `CompiledCodeInfo.code_end`: one past the last byte. -/
def CompiledCodeInfo.code_end (c : CompiledCodeInfo) : Nat :=
  c.code_addr + c.code_size

/-- `CompiledCodeInfo.contains_timestamp`:
`timestamp >= self.timestamp and (self.unload_time is None or
self.unload_time > timestamp)`. -/
def CompiledCodeInfo.contains_timestamp (c : CompiledCodeInfo) (t : ℚ) : Bool :=
  decide (t ≥ c.timestamp) &&
    (match c.unload_time with
     | none => true
     | some u => decide (u > t))

/-- `CompiledCodeInfo.contains`: address-range test, and, when a
timestamp is supplied, the liveness test — except that generated (stub)
code is treated as persistent.  The `pc` argument is `Int` because the
Python caller may pass any integer (e.g. `base - 1`). -/
def CompiledCodeInfo.contains (c : CompiledCodeInfo) (pc : Int)
    (timestamp : Option ℚ := none) : Bool :=
  if (c.code_addr : Int) ≤ pc ∧ pc < (c.code_end : Int) then
    c.generated ||
      (match timestamp with
       | none => true
       | some ts => c.contains_timestamp ts)
  else false

/-- `CompiledCodeInfo.add`: record an attributed event and bump the
aggregates.  (The source's `assert code_addr <= event.pc < code_end()`
always holds at the call site: `add_event` only calls `add` on the
region `find` returned, and every `find` candidate contains the pc.) -/
def CompiledCodeInfo.add (c : CompiledCodeInfo) (event : PerfEvent) : CompiledCodeInfo :=
  { c with
    events := c.events ++ [event],
    total_period := c.total_period + event.period,
    total_samples := c.total_samples + event.samples }

/-! ### The generated-assembly decoder and code index (`GeneratedAssembly`) -/

/-- The fixed bucket size of the search map (`self.bucket_size = 8192`). -/
def bucket_size : Nat := 8192

/-- `GeneratedAssembly.round_down` (Python computes
`bucket * int(value / bucket)`; for the non-negative values in play this
is integer division). -/
def round_down (value : Nat) : Nat :=
  bucket_size * (value / bucket_size)

/-- `GeneratedAssembly.round_up`. -/
def round_up (value : Nat) : Nat :=
  bucket_size * ((value + bucket_size - 1) / bucket_size)

/-- All the assembly generated by the JIT (`GeneratedAssembly`).
`code_by_address` and the bucket `map` store positions into `code_info`,
modelling Python's shared object references.  `map = []` is the unbuilt
(lazy) state: Python initialises `self.map = {}` and tests `if not
self.map` before a lookup. -/
structure GeneratedAssembly where
  code_info : List CompiledCodeInfo := []
  low_address : Option Nat := none
  high_address : Option Nat := none
  code_by_address : List (Nat × Nat) := []
  map : List (Nat × List Nat) := []
  deriving DecidableEq, Inhabited

/-- `GeneratedAssembly.add`: append a region, widen the known range and
register the base address.  Python's `if not self.low_address` treats
both `None` and address `0` as unset. -/
def GeneratedAssembly.add (st : GeneratedAssembly) (c : CompiledCodeInfo) :
    GeneratedAssembly :=
  { st with
    code_info := st.code_info ++ [c],
    low_address :=
      if pyTruthyNat st.low_address then
        some (min (st.low_address.getD 0) c.code_begin)
      else some c.code_begin,
    high_address :=
      if pyTruthyNat st.low_address then
        some (max (st.high_address.getD 0) c.code_end)
      else some c.code_end,
    code_by_address := dictSet st.code_by_address c.code_addr st.code_info.length }

/-- Append region index `i` to bucket `k` of the search map, creating the
bucket if needed (insertion-ordered dict of lists). -/
def mapAppend (m : List (Nat × List Nat)) (k i : Nat) : List (Nat × List Nat) :=
  match m with
  | [] => [(k, [i])]
  | p :: ps => if p.1 == k then (p.1, p.2 ++ [i]) :: ps else p :: mapAppend ps k i

/-- The bucket start addresses spanned by a region:
`range(round_down(begin), round_up(end), bucket_size)`. -/
def bucketStarts (c : CompiledCodeInfo) : List Nat :=
  List.range' (round_down c.code_begin)
    ((round_up c.code_end - round_down c.code_begin) / bucket_size) bucket_size

/-- `GeneratedAssembly.build_search_map`: for every region (in load
order), append it to every bucket its range spans. -/
def build_search_map (regions : List CompiledCodeInfo) : List (Nat × List Nat) :=
  regions.enum.foldl
    (fun m p => (bucketStarts p.2).foldl (fun m k => mapAppend m k p.1) m) []

/-- The candidate list `find` works on: the bucket for `pc`, filtered to
the regions whose address range contains `pc` (`x.contains(pc)` with no
timestamp).  `regions` is the region list the indices refer to. -/
def entriesFor (regions : List CompiledCodeInfo) (m : List (Nat × List Nat))
    (pc : Nat) : List Nat :=
  match lookupAssoc m (round_down pc) with
  | none => []
  | some es => es.filter fun i => (regions.getD i default).contains (pc : Int)

/-- The `AssertionError` message raised when the index lookup disagrees
with the full linear scan. -/
def findMismatchMessage (pc : Nat) : String :=
  "AssertionError: find has no hits for pc " ++ toString pc ++ " but search found matches"

/-- The disambiguation policy of `GeneratedAssembly.find` applied to the
candidate list `entries`: an empty candidate list falls back to the full
linear scan as a consistency check (a hit there is the fatal internal
`AssertionError`); a single candidate is returned without consulting the
timestamp; otherwise the first exact timestamp match
(`x.contains(pc, timestamp)`), then the first candidate whose
`unload_time` is unset or past the timestamp, then none. -/
def findPolicy (regions : List CompiledCodeInfo) (entries : List Nat)
    (pc : Nat) (ts : ℚ) : Except String (Option Nat) :=
  if entries.isEmpty then
    if (regions.filter fun c => c.contains (pc : Int)).isEmpty then
      .ok none
    else
      .error (findMismatchMessage pc)
  else if entries.length == 1 then
    .ok entries.head?
  else
    match entries.find? fun i => (regions.getD i default).contains (pc : Int) (some ts) with
    | some i => .ok (some i)
    | none =>
      match entries.find? fun i =>
          match (regions.getD i default).unload_time with
          | none => true
          | some u => decide (u > ts) with
      | some i => .ok (some i)
      | none => .ok none

/-- `GeneratedAssembly.find`, index part: build the bucket map if it is
not yet built, collect the bucket candidates containing `pc`, then apply
the disambiguation policy.  Returns the position of the chosen region in
`code_info` and the (possibly updated, map now cached) state. -/
def find_core (st : GeneratedAssembly) (pc : Nat) (ts : ℚ) :
    Except String (Option Nat) × GeneratedAssembly :=
  let st' := if st.map.isEmpty then { st with map := build_search_map st.code_info } else st
  (findPolicy st'.code_info (entriesFor st'.code_info st'.map pc) pc ts, st')

/-- `GeneratedAssembly.find`: the region chosen by `find_core`. -/
def GeneratedAssembly.find (st : GeneratedAssembly) (pc : Nat) (ts : ℚ) :
    Except String (Option CompiledCodeInfo) × GeneratedAssembly :=
  let r := find_core st pc ts
  (r.1.map fun o => o.map fun i => r.2.code_info.getD i default, r.2)

/-- A fresh decoder state holding `regions` in load order, before any
lookup (bucket map not yet built). -/
def mkAssembly (regions : List CompiledCodeInfo) : GeneratedAssembly :=
  { code_info := regions }

/-! ### Trace record decoding (`GeneratedAssembly.read`)

The byte-level layer (magic, lengths, big-endian fields, the nested
`MethodsTag`/`DebugInfoTag` sections) is abstracted to a stream of tagged
records; the record loop itself is modelled faithfully, including the
dead `if not nmethod` guard after `self.code_by_address[code_addr]`:
a missing address raises `KeyError` at the subscript, so the guarded
`mx.abort` is unreachable. -/

/-- One tagged record of the JVMTI trace stream. -/
inductive TraceRecord where
  | dynamicCode (timestamp : ℚ) (name : String) (code_addr : Nat) (code : List Nat)
  | methodLoad (timestamp : ℚ) (code_addr : Nat) (code : List Nat)
      (methods : List Method) (debug_infos : List DebugInfo)
  | methodUnload (timestamp : ℚ) (code_addr : Nat)
  | unknownTag (tag : Int)
  deriving DecidableEq

/-- The `KeyError` raised by `self.code_by_address[code_addr]` when an
unload record references an address that was never loaded. -/
def keyErrorMessage (addr : Nat) : String :=
  "KeyError: " ++ toString addr

/-- `AssertionError("Unexpected tag ...")`. -/
def unexpectedTagMessage (tag : Int) : String :=
  "AssertionError: Unexpected tag " ++ toString tag

/-- `IndexError` from `methods[0]` when a method-load record carries no
methods. -/
def emptyMethodsMessage : String :=
  "IndexError: list index out of range"

/-- The record loop of `GeneratedAssembly.read`: a dynamic-code record
adds a stub region, a method-load record adds a non-stub region named
after its first method, an unload record sets the unload time of the
region registered at that exact base address (KeyError if there is
none), and an unknown tag is fatal. -/
def readRecords (st : GeneratedAssembly) : List TraceRecord → Except String GeneratedAssembly
  | [] => .ok st
  | .dynamicCode ts name addr code :: rest =>
      readRecords
        (st.add
          { name := name, timestamp := ts, code_addr := addr,
            code_size := code.length, code := code, generated := true })
        rest
  | .methodLoad ts addr code methods debug :: rest =>
      match methods with
      | [] => .error emptyMethodsMessage
      | m :: _ =>
          readRecords
            (st.add
              { name := m.format_name, timestamp := ts, code_addr := addr,
                code_size := code.length, code := code, generated := false,
                debug_info := some debug, methods := some methods })
            rest
  | .methodUnload ts addr :: rest =>
      match lookupAssoc st.code_by_address addr with
      | none => .error (keyErrorMessage addr)
      | some i =>
          readRecords
            { st with
              code_info :=
                st.code_info.set i ((st.code_info.getD i default).set_unload_time ts) }
            rest
  | .unknownTag t :: _ => .error (unexpectedTagMessage t)

/-- The base addresses of the load-type records of a stream (the keys
`read` registers in `code_by_address`). -/
def loadAddresses (records : List TraceRecord) : List Nat :=
  records.filterMap fun r =>
    match r with
    | .dynamicCode _ _ addr _ => some addr
    | .methodLoad _ addr _ _ _ => some addr
    | _ => none

/-- A record stream the decoder accepts: every method-load record has at
least one method, every unload references a previously loaded base
address, and there are no unknown tags.  `loaded` accumulates the base
addresses loaded so far. -/
def wellFormedStream (loaded : List Nat) : List TraceRecord → Bool
  | [] => true
  | .dynamicCode _ _ addr _ :: rest => wellFormedStream (addr :: loaded) rest
  | .methodLoad _ addr _ methods _ :: rest =>
      !methods.isEmpty && wellFormedStream (addr :: loaded) rest
  | .methodUnload _ addr :: rest => loaded.contains addr && wellFormedStream loaded rest
  | .unknownTag _ :: _ => false

/-- A decoder state before any record has been read. -/
def emptyAssembly : GeneratedAssembly := {}

/-! ### Perf sample stream decoding (`PerfOutput.read_perf_output`)

The line grammar is the Python regular expression

  `(?P<timestamp>[0-9]+\.[0-9]*):\s+(?P<period>[0-9]*)\s+(?P<events>[^\s]*):\s+`
  `(?P<pc>[a-fA-F0-9]+)\s+(?P<symbol>.*)\s+\((?P<dso>.*)\)\s*`

applied with `re.match` (anchored at the start only).  Every quantifier
in it applies to a single character class, so the pattern is modelled as
a sequence of class items and matched with the same leftmost,
greedy-with-backtracking strategy `re` uses; the matcher returns the
characters consumed by each item, from which the named groups are read
off. -/

/-- Python `\s` (ASCII range). -/
def pyIsSpace (c : Char) : Bool :=
  c == ' ' || c == '\t' || c == '\n' || c == '\r' || c == '\x0b' || c == '\x0c'

/-- `[0-9]`. -/
def pyIsDigit (c : Char) : Bool :=
  '0' ≤ c && c ≤ '9'

/-- `[a-fA-F0-9]`. -/
def pyIsHexDigit (c : Char) : Bool :=
  pyIsDigit c || ('a' ≤ c && c ≤ 'f') || ('A' ≤ c && c ≤ 'F')

/-- `[^\s]`. -/
def pyNotSpace (c : Char) : Bool :=
  !pyIsSpace c

/-- `.` (any character but a newline). -/
def pyAnyChar (c : Char) : Bool :=
  c != '\n'

/-- A single literal character. -/
def chrIs (x : Char) : Char → Bool :=
  fun c => c == x

/-- `str.strip()`: drop leading and trailing whitespace. -/
def pyStrip (s : List Char) : List Char :=
  ((s.dropWhile pyIsSpace).reverse.dropWhile pyIsSpace).reverse

/-- One item of a regular expression in which every quantifier governs a
character class: a single class character, a greedy `*`, or a greedy
`+`. -/
inductive RItem where
  | one (p : Char → Bool)
  | many (p : Char → Bool)
  | many1 (p : Char → Bool)

/-- All ways to split off a prefix of characters satisfying `p`, longest
first — the order in which a greedy quantifier tries them. -/
def pTakes (p : Char → Bool) : List Char → List (List Char × List Char)
  | [] => [([], [])]
  | c :: cs =>
      if p c then
        ((pTakes p cs).map fun t => (c :: t.1, t.2)) ++ [([], c :: cs)]
      else [([], c :: cs)]

/-- Backtracking matcher: returns the characters consumed by each item of
the pattern for the first (greedy, leftmost) successful assignment, or
`none`.  Like `re.match`, the end of the pattern need not reach the end
of the input. -/
def rmatchSeg : List RItem → List Char → Option (List (List Char))
  | [], _ => some []
  | RItem.one _ :: _, [] => none
  | RItem.one p :: rest, c :: cs =>
      if p c then (rmatchSeg rest cs).map fun segs => [c] :: segs else none
  | RItem.many p :: rest, cs =>
      (pTakes p cs).findSome? fun t => (rmatchSeg rest t.2).map fun segs => t.1 :: segs
  | RItem.many1 _ :: _, [] => none
  | RItem.many1 p :: rest, c :: cs =>
      if p c then
        (pTakes p cs).findSome? fun t =>
          (rmatchSeg rest t.2).map fun segs => (c :: t.1) :: segs
      else none

/-- The perf script line pattern, one item per atom of the regular
expression.  Item positions: 0–2 the `timestamp` group (`[0-9]+ \. [0-9]*`),
5 the `period` group, 7 the `events` group, 10 the `pc` group, 12 the
`symbol` group, 15 the `dso` group. -/
def perfPattern : List RItem :=
  [RItem.many1 pyIsDigit, RItem.one (chrIs '.'), RItem.many pyIsDigit,
   RItem.one (chrIs ':'), RItem.many1 pyIsSpace,
   RItem.many pyIsDigit, RItem.many1 pyIsSpace,
   RItem.many pyNotSpace, RItem.one (chrIs ':'), RItem.many1 pyIsSpace,
   RItem.many1 pyIsHexDigit, RItem.many1 pyIsSpace,
   RItem.many pyAnyChar, RItem.many1 pyIsSpace, RItem.one (chrIs '('),
   RItem.many pyAnyChar, RItem.one (chrIs ')'), RItem.many pyIsSpace]

/-- Decimal digits to a number (`int(s)` for a non-empty digit string). -/
def digitsToNat (ds : List Char) : Nat :=
  ds.foldl (fun a c => 10 * a + (c.toNat - '0'.toNat)) 0

/-- Hex digit value. -/
def hexVal (c : Char) : Nat :=
  if pyIsDigit c then c.toNat - '0'.toNat
  else if 'a' ≤ c && c ≤ 'f' then c.toNat - 'a'.toNat + 10
  else c.toNat - 'A'.toNat + 10

/-- `int(s, 16)` for a non-empty hex string. -/
def hexToNat (ds : List Char) : Nat :=
  ds.foldl (fun a c => 16 * a + hexVal c) 0

/-- The exact value of the decimal literal `d1.d2` (`float(...)` modelled
exactly). -/
def decimalToRat (d1 d2 : List Char) : ℚ :=
  (digitsToNat d1 : ℚ) + (digitsToNat d2 : ℚ) / ((10 : ℚ) ^ d2.length)

/-- The fatal `AssertionError('Unable to parse perf output: ...')`. -/
def perfParseErrorMessage (line : List Char) : String :=
  "Unable to parse perf output: " ++ String.mk line

/-- `int('')` raised while building the `PerfEvent` when the `period`
group matched the empty string. -/
def emptyPeriodMessage : String :=
  "ValueError: invalid literal for int() with base 10"

/-- Parse one (already stripped) line: regex match, then
`PerfEvent(timestamp, events, period, pc, symbol, dso)` with its `int`/
`float` conversions. -/
def parsePerfLine (line : List Char) : Except String PerfEvent :=
  match rmatchSeg perfPattern line with
  | none => .error (perfParseErrorMessage line)
  | some segs =>
      let period := segs.getD 5 []
      if period.isEmpty then .error emptyPeriodMessage
      else
        .ok
          { timestamp := decimalToRat (segs.getD 0 []) (segs.getD 2 []),
            events := String.mk (segs.getD 7 []),
            period := digitsToNat period,
            pc := hexToNat (segs.getD 10 []),
            symbol := String.mk (segs.getD 12 []),
            dso := String.mk (segs.getD 15 []) }

/-- The line loop of `read_perf_output`: each line is stripped and must
parse; the first bad line is fatal. -/
def parsePerfLines : List String → Except String (List PerfEvent)
  | [] => .ok []
  | l :: ls =>
      match parsePerfLine (pyStrip l.data) with
      | .error e => .error e
      | .ok ev => (parsePerfLines ls).map fun evs => ev :: evs

/-- `PerfOutput.read_perf_output` over the lines of the sample file:
the decoded events, `total_samples = len(self.events)` and
`total_period` the sum of the periods. -/
def read_perf_output (lines : List String) :
    Except String (List PerfEvent × Nat × Nat) :=
  (parsePerfLines lines).map fun evs =>
    (evs, evs.length, (evs.map fun e => e.period).sum)

/-! ### Event merging (`PerfOutput.merge_perf_events`) -/

/-- One step of the merge loop over `events_by_address`: if the event's
pc is already a key, add the period onto the stored (copied) event;
otherwise insert a copy of the event under its pc. -/
def mergeStep (acc : List (Nat × PerfEvent)) (ev : PerfEvent) :
    List (Nat × PerfEvent) :=
  match acc with
  | [] => [(ev.pc, ev)]
  | p :: ps =>
      if p.1 == ev.pc then (p.1, { p.2 with period := p.2.period + ev.period }) :: ps
      else p :: mergeStep ps ev

/-- `PerfOutput.merge_perf_events`: returns `(self.events,
self.raw_events)` after the merge — the merged events (the dict's values
in insertion order) and the untouched raw list the original `self.events`
was saved into. -/
def merge_perf_events (events : List PerfEvent) : List PerfEvent × List PerfEvent :=
  ((events.foldl mergeStep []).map Prod.snd, events)

/-! ### Event attribution (`GeneratedAssembly.attribute_events`) -/

/-- `GeneratedAssembly.add_event`: look the pc/timestamp up; on a hit,
re-tag the event's symbol and module and add it to the region.  Returns
whether the event was attributed, the (possibly re-tagged) event, and
the updated state.  Python mutates the event before the region's `add`
sees it return — the object stored in `events` is the re-tagged one. -/
def add_event (st : GeneratedAssembly) (ev : PerfEvent) :
    Except String (Bool × PerfEvent × GeneratedAssembly) :=
  let r := find_core st ev.pc ev.timestamp
  match r.1 with
  | .error e => .error e
  | .ok none => .ok (false, ev, r.2)
  | .ok (some i) =>
      let c := r.2.code_info.getD i default
      let ev' := { ev with
        dso := if c.generated then "[Generated]" else "[JIT]",
        symbol := c.name }
      .ok (true, ev', { r.2 with code_info := r.2.code_info.set i (c.add ev') })

/-- Accumulated outcome of the attribution loop. -/
structure AttrAcc where
  assembly : GeneratedAssembly
  events : List PerfEvent
  attributed : Nat
  unknown : Nat
  missing : Nat
  deriving DecidableEq

/-- The loop body of `attribute_events`: events inside
`[low_address, high_address)` go through `add_event` and bump
`attributed` or `missing`; outside events with symbol `'[Unknown]'` bump
`unknown`; all other events are skipped. -/
def attrGo (st : GeneratedAssembly) (lo hi : Nat) :
    List PerfEvent → Nat → Nat → Nat → Except String AttrAcc
  | [], attributed, unknown, missing =>
      .ok { assembly := st, events := [], attributed := attributed,
            unknown := unknown, missing := missing }
  | ev :: rest, attributed, unknown, missing =>
      if lo ≤ ev.pc ∧ ev.pc < hi then
        match add_event st ev with
        | .error e => .error e
        | .ok (hit, ev', st') =>
            (attrGo st' lo hi rest (if hit then attributed + 1 else attributed) unknown
                (if hit then missing else missing + 1)).map
              fun r => { r with events := ev' :: r.events }
      else if ev.symbol == "[Unknown]" then
        (attrGo st lo hi rest attributed (unknown + 1) missing).map
          fun r => { r with events := ev :: r.events }
      else
        (attrGo st lo hi rest attributed unknown missing).map
          fun r => { r with events := ev :: r.events }

/-- Result of `attribute_events`; `warn` records whether the non-fatal
`mx.warn` about unattributed events fired (`missing > 50`). -/
structure AttributionResult where
  assembly : GeneratedAssembly
  events : List PerfEvent
  attributed : Nat
  unknown : Nat
  missing : Nat
  warn : Bool
  deriving DecidableEq

/-- `GeneratedAssembly.attribute_events` (the initial `assert` that the
address range is known is the error case). -/
def attribute_events (st : GeneratedAssembly) (events : List PerfEvent) :
    Except String AttributionResult :=
  match st.low_address, st.high_address with
  | some lo, some hi =>
      (attrGo st lo hi events 0 0 0).map fun r =>
        { assembly := r.assembly, events := r.events, attributed := r.attributed,
          unknown := r.unknown, missing := r.missing,
          warn := decide (r.missing > 50) }
  | _, _ => .error "AssertionError: low_address or high_address is None"

/-! ### Ranking (`GeneratedAssembly.top_methods`) -/

/-- Descending order on the aggregated period; `entries.sort(key=lambda
x: x.total_period, reverse=True)` is a stable sort under this relation,
which is what insertion sort from the right computes. -/
def periodGE (a b : CompiledCodeInfo) : Prop :=
  b.total_period ≤ a.total_period

instance : DecidableRel periodGE :=
  fun a b => Nat.decLe b.total_period a.total_period

instance : IsTotal CompiledCodeInfo periodGE :=
  ⟨fun a b => (Nat.le_total b.total_period a.total_period).elim Or.inl Or.inr⟩

instance : IsTrans CompiledCodeInfo periodGE :=
  ⟨fun _ _ _ h1 h2 => Nat.le_trans h2 h1⟩

/-- `GeneratedAssembly.top_methods`: with a filter, sort a fresh filtered
list; without one, `entries` aliases `self.code_info` and `entries.sort`
reorders the stored list itself. -/
def top_methods (st : GeneratedAssembly) (incl : Option (CompiledCodeInfo → Bool)) :
    List CompiledCodeInfo × GeneratedAssembly :=
  match incl with
  | some p => (List.insertionSort periodGE (st.code_info.filter p), st)
  | none =>
      let s := List.insertionSort periodGE st.code_info
      (s, { st with code_info := s })

/-! ### Hot-region extraction (`DisassemblyDecoder.filter_by_hot_region`) -/

/-- A decoded instruction (`Instruction`); only the address matters to
hot-region extraction. -/
structure Instruction where
  address : Nat
  mnemonic : String := ""
  operand : String := ""
  instruction_bytes : List Nat := []
  size : Nat := 1
  deriving DecidableEq, Inhabited

/-- Walker state of `filter_by_hot_region`: the running index, the
opening index of the currently open region (`None` when closed — but the
source tests it with `if not begin` / `if begin`, so an opening index of
`0` behaves like a closed region), the gap counter, the regions emitted
so far, and the remaining hot addresses. -/
structure HotWalkState where
  index : Nat
  begin? : Option Nat
  skip : Nat
  regions : List (Nat × Nat)
  hotpc : List Nat
  deriving DecidableEq

/-- One iteration of the `filter_by_hot_region` loop. -/
def hotRegionStep (context_size : Nat) (st : HotWalkState) (ins : Instruction) :
    HotWalkState :=
  let st :=
    if st.hotpc.contains ins.address then
      { st with
        skip := 0,
        begin? :=
          if pyTruthyNat st.begin? then st.begin?
          else some (max (st.index - context_size) 0),
        hotpc := st.hotpc.erase ins.address }
    else { st with skip := st.skip + 1 }
  let st :=
    if pyTruthyNat st.begin? ∧ st.skip > context_size then
      { st with
        regions := st.regions ++ [(st.begin?.getD 0, st.index)],
        begin? := none, skip := 0 }
    else st
  { st with index := st.index + 1 }

/-- `DisassemblyDecoder.filter_by_hot_region` (default
`context_size=16`): walk the instructions, open a region `context_size`
before a hot address, close it `context_size` past the last one, close a
still-open region at the end.  Returns the regions and the hot addresses
never matched (Python leaves them in the caller's set). -/
def filter_by_hot_region (instructions : List Instruction) (hotpc : List Nat)
    (context_size : Nat := 16) : List (Nat × Nat) × List Nat :=
  let st := instructions.foldl (hotRegionStep context_size)
    { index := 0, begin? := none, skip := 0, regions := [], hotpc := hotpc }
  let regions :=
    if pyTruthyNat st.begin? then st.regions ++ [(st.begin?.getD 0, st.index)]
    else st.regions
  (regions, st.hotpc)

/-! ### Predicates worded after the specification (for the lookup claim) -/

/-- The spec's exact time-window match: a stub region always matches; a
non-stub region matches when `load_timestamp <= timestamp` and
`unload_timestamp` is unset or `> timestamp`. -/
def specExactMatch (c : CompiledCodeInfo) (ts : ℚ) : Bool :=
  if c.generated then true
  else
    decide (c.timestamp ≤ ts) &&
      (match c.unload_time with
       | none => true
       | some u => decide (ts < u))

/-- The spec's fallback filter: a candidate whose `unload_timestamp` is
unset or strictly greater than the timestamp. -/
def specNotUnloaded (c : CompiledCodeInfo) (ts : ℚ) : Bool :=
  match c.unload_time with
  | none => true
  | some u => decide (ts < u)

/-- Sum of the weights of the events recorded at one address. -/
def sumPeriods (l : List PerfEvent) (pc : Nat) : Nat :=
  ((l.filter fun e => e.pc == pc).map fun e => e.period).sum

/-- Whether a stripped sample line is accepted by the decoder: it must
match the record grammar, with a non-empty `period` field (an empty
`period` group passes the regex but `int('')` is fatal). -/
def perfLineOk (line : List Char) : Bool :=
  match rmatchSeg perfPattern line with
  | none => false
  | some segs => !(segs.getD 5 []).isEmpty

/-- `true` on `Except.ok`. -/
def exceptOk {ε α : Type} : Except ε α → Bool
  | .ok _ => true
  | .error _ => false

/-! ### Concrete inputs used by witnesses and counterexamples -/

/-- A 16-byte non-stub region. -/
def demoRegion : CompiledCodeInfo :=
  { name := "demo", timestamp := 1, code_addr := 4096, code_size := 16,
    code := [], generated := false }

/-- A region of size zero (a method-load record may carry size 0). -/
def demoEmptyRegion : CompiledCodeInfo :=
  { name := "empty", timestamp := 0, code_addr := 4096, code_size := 0,
    code := [], generated := true }

/-- A stub region. -/
def demoStub : CompiledCodeInfo :=
  { name := "stub", timestamp := 3, code_addr := 8192, code_size := 32,
    code := [], generated := true }

/-- 22 instructions at addresses `0..21`. -/
def hotDemoInstructions : List Instruction :=
  (List.range 22).map fun i => { address := i }

/-- 5 instructions at addresses `0..4` (the hot-at-index-0 scenario). -/
def hotZeroInstructions : List Instruction :=
  (List.range 5).map fun i => { address := i }

/-- Two raw events at one address with weights 100 and 50. -/
def rawEventA : PerfEvent :=
  { timestamp := 1, events := "cycles", period := 100, pc := 4096,
    symbol := "s", dso := "d" }

/-- Second raw event at the same address. -/
def rawEventB : PerfEvent :=
  { rawEventA with period := 50, timestamp := 2 }

/-- Region used by the attribution witness. -/
def attrRegion : CompiledCodeInfo :=
  { name := "R", timestamp := 1, code_addr := 4096, code_size := 100,
    code := [], generated := false }

/-- Decoder state holding `attrRegion` with its known address range. -/
def attrAssembly : GeneratedAssembly :=
  { code_info := [attrRegion], low_address := some 4096, high_address := some 4196 }

/-- Event attributed to `attrRegion`. -/
def attrEvent : PerfEvent :=
  { timestamp := 2, events := "cycles", period := 7, pc := 4100,
    symbol := "old", dso := "olddso" }

/-- `attrEvent` after re-tagging against `attrRegion`. -/
def attrEventTagged : PerfEvent :=
  { attrEvent with symbol := "R", dso := "[JIT]" }

/-- `attrAssembly` after its bucket map has been built. -/
def attrAssemblyBuilt : GeneratedAssembly :=
  { attrAssembly with map := [(0, [0])] }

/-- Result of attributing an empty event list on `attrAssembly`. -/
def attrEmptyOutcome : AttributionResult :=
  { assembly := attrAssembly, events := [], attributed := 0, unknown := 0,
    missing := 0, warn := false }

/-- Two same-range regions distinguished by load order: `orderA` is
loaded first with no samples, `orderB` second with some. -/
def orderA : CompiledCodeInfo :=
  { name := "A", timestamp := 10, code_addr := 4096, code_size := 16,
    code := [], generated := false }

/-- Companion of `orderA` with a larger aggregated period. -/
def orderB : CompiledCodeInfo :=
  { orderA with name := "B", total_period := 5 }

/-! ## Helper lemmas -/

/-- With no timestamp, `contains` is exactly the half-open address-range
test. -/
theorem contains_none_eq_range (c : CompiledCodeInfo) (pc : Int) :
    c.contains pc = decide ((c.code_addr : Int) ≤ pc ∧ pc < (c.code_end : Int)) := by
  unfold CompiledCodeInfo.contains
  split
  · next h => simp [h]
  · next h => simp [h]

/-! ## Claim theorems -/

/-- Claim C2 (amended: for every region of positive size): the
address-containment test with no timestamp is the half-open interval
`[base_address, base_address + size)`; in particular `contains(base-1)`
is false, `contains(base)` and `contains(end-1)` are true, and
`contains(end)` is false. -/
theorem c2_contains_half_open (c : CompiledCodeInfo) (h : 0 < c.code_size) :
    c.contains ((c.code_addr : Int) - 1) = false ∧
    c.contains (c.code_addr : Int) = true ∧
    c.contains ((c.code_end : Int) - 1) = true ∧
    c.contains (c.code_end : Int) = false ∧
    ∀ pc : Int, c.contains pc = true ↔
      ((c.code_addr : Int) ≤ pc ∧ pc < (c.code_addr : Int) + (c.code_size : Int)) := by
  refine ⟨?_, ?_, ?_, ?_, fun pc => ?_⟩ <;>
    simp only [contains_none_eq_range, CompiledCodeInfo.code_end, decide_eq_true_eq,
      decide_eq_false_iff_not] <;>
    push_cast <;> omega

/-- Claim C2 counterexample: the claim quantifies over every region, but
a region of size zero (`[base, base)` is empty) does not contain its own
base address, so `contains(R.base)` is not always true. -/
theorem c2_counterexample :
    ¬ ∀ c : CompiledCodeInfo, c.contains (c.code_addr : Int) = true := by
  intro h
  exact absurd (h demoEmptyRegion) (by decide)

/-- Claim C2 witness. -/
theorem c2_witness :
    0 < demoRegion.code_size ∧ demoRegion.contains (demoRegion.code_addr : Int) = true :=
  ⟨by decide, (c2_contains_half_open demoRegion (by decide)).2.1⟩

/-- Claim C3: a stub region (`generated = true`) contains every pc of its
address range at every timestamp, and still does after an unload record
sets its `unload_time` through `set_unload_time`. -/
theorem c3_stub_always_live (c : CompiledCodeInfo) (pc : Int) (ts u : ℚ)
    (hstub : c.generated = true)
    (hlo : (c.code_addr : Int) ≤ pc) (hhi : pc < (c.code_end : Int)) :
    c.contains pc (some ts) = true ∧
    (c.set_unload_time u).contains pc (some ts) = true := by
  constructor
  · unfold CompiledCodeInfo.contains
    rw [if_pos ⟨hlo, hhi⟩, hstub]
    simp
  · unfold CompiledCodeInfo.contains CompiledCodeInfo.set_unload_time
    rw [if_pos ⟨hlo, by simpa [CompiledCodeInfo.code_end] using hhi⟩]
    simp [hstub]

/-- Claim C3 witness. -/
theorem c3_witness :
    demoStub.generated = true ∧
    demoStub.contains 8200 (some 1) = true ∧
    (demoStub.set_unload_time 0).contains 8200 (some 1) = true := by
  have h := c3_stub_always_live demoStub 8200 1 0 rfl (by decide) (by decide)
  exact ⟨rfl, h.1, h.2⟩

/-- Injective maps preserve `Nat` equality tests. -/
theorem beq_map_eq (f : Nat → Nat) (hf : Function.Injective f) (x y : Nat) :
    (f x == f y) = (x == y) := by
  cases h : x == y with
  | true =>
      have hxy : x = y := by simpa using h
      simp [hxy]
  | false =>
      have hxy : ¬x = y := by simpa using h
      have hne : ¬f x = f y := fun hh => hxy (hf hh)
      simp [hne]

/-- Injective maps preserve membership tests. -/
theorem contains_map (f : Nat → Nat) (hf : Function.Injective f) (l : List Nat) (i : Nat) :
    (l.map f).contains (f i) = l.contains i := by
  induction l with
  | nil => rfl
  | cons a as ih =>
      rw [List.map_cons, List.contains_cons, List.contains_cons, ih, beq_map_eq f hf]

/-- The hot-region walk only compares addresses for equality, so
renaming all addresses through an injective map leaves the walk
unchanged except for the hot set's values. -/
theorem hotstep_map (f : Nat → Nat) (hf : Function.Injective f) (c i : Nat)
    (idx sk : Nat) (b : Option Nat) (regs : List (Nat × Nat)) (hp : List Nat) :
    hotRegionStep c ⟨idx, b, sk, regs, hp.map f⟩ { address := f i }
      = (fun r => (⟨r.index, r.begin?, r.skip, r.regions, r.hotpc.map f⟩ : HotWalkState))
          (hotRegionStep c (⟨idx, b, sk, regs, hp⟩ : HotWalkState) { address := i }) := by
  unfold hotRegionStep
  rw [show ({ address := f i } : Instruction).address = f i from rfl]
  rw [show ({ address := i } : Instruction).address = i from rfl]
  rw [contains_map f hf]
  cases hc : hp.contains i with
  | true =>
      rw [if_pos rfl, if_pos rfl]
      rw [show (List.map f hp).erase (f i) = (hp.erase i).map f from (List.map_erase hf hp).symm]
      dsimp only
      have hno : ∀ P : Prop, ¬(P ∧ 0 > c) := fun P h => Nat.not_lt_zero c h.2
      rw [if_neg (hno _), if_neg (hno _)]
  | false =>
      rw [if_neg (by decide), if_neg (by decide)]
      dsimp only
      by_cases h2 : pyTruthyNat b = true ∧ sk + 1 > c
      · rw [if_pos h2, if_pos h2]
      · rw [if_neg h2, if_neg h2]

/-- `hotstep_map` extended over a whole walk. -/
theorem foldl_hotstep_map (f : Nat → Nat) (hf : Function.Injective f) (c : Nat)
    (idxs : List Nat) :
    ∀ (idx sk : Nat) (b : Option Nat) (regs : List (Nat × Nat)) (hp : List Nat),
    idxs.foldl (fun s i => hotRegionStep c s { address := f i }) ⟨idx, b, sk, regs, hp.map f⟩
      = (fun r => (⟨r.index, r.begin?, r.skip, r.regions, r.hotpc.map f⟩ : HotWalkState))
          (idxs.foldl (fun s i => hotRegionStep c s { address := i }) ⟨idx, b, sk, regs, hp⟩) := by
  induction idxs with
  | nil => intro idx sk b regs hp; rfl
  | cons j js ih =>
      intro idx sk b regs hp
      rw [List.foldl_cons, List.foldl_cons, hotstep_map f hf]
      cases hr : hotRegionStep c ⟨idx, b, sk, regs, hp⟩ { address := j } with
      | mk ridx rb rsk rregs rhp =>
          dsimp only
          exact ih ridx rsk rb rregs rhp

/-- Hot-region extraction is invariant under injective renaming of the
addresses: the regions agree and the leftover hot set is renamed. -/
theorem filter_by_hot_region_map (f : Nat → Nat) (hf : Function.Injective f)
    (idxs hot : List Nat) (c : Nat) :
    filter_by_hot_region (idxs.map fun i => { address := f i }) (hot.map f) c
      = ((filter_by_hot_region (idxs.map fun i => { address := i }) hot c).1,
         (filter_by_hot_region (idxs.map fun i => { address := i }) hot c).2.map f) := by
  unfold filter_by_hot_region
  rw [List.foldl_map, List.foldl_map]
  rw [foldl_hotstep_map f hf c idxs 0 0 none [] hot]

set_option maxRecDepth 4000 in
/-- Claim C4 counterexample: with `context_size = 2` and hot addresses at
instruction indices 5, 6 and 20 of a 22-instruction list, the walk
closes the first region at index 9 (the gap counter exceeds the context
only at the third consecutive non-hot instruction), so the first region
is `[3, 9)`, not `[3, 8)` as claimed. -/
theorem c4_counterexample :
    (filter_by_hot_region hotDemoInstructions [5, 6, 20] 2).1 = [(3, 9), (18, 22)] ∧
    ((3, 9) : Nat × Nat) ≠ (3, 8) := by
  exact ⟨by decide, by decide⟩

set_option maxRecDepth 4000 in
/-- Claim C4 (amended): over every 22-instruction list whose addresses
are assigned by an injective map (pairwise distinct) and whose hot
addresses are the ones at instruction indices 5, 6 and 20, extraction
with `context_size = 2` yields exactly the regions `[3, 9)` and
`[18, 22)` and leaves the hot-address set empty.  (With more than 22
instructions the second region instead closes at index 23.) -/
theorem c4_hot_regions (f : Nat → Nat) (hf : Function.Injective f) :
    filter_by_hot_region ((List.range 22).map fun i => { address := f i })
      [f 5, f 6, f 20] 2 = ([(3, 9), (18, 22)], []) := by
  rw [show ([f 5, f 6, f 20] : List Nat) = [5, 6, 20].map f from rfl]
  rw [filter_by_hot_region_map f hf (List.range 22) [5, 6, 20] 2]
  rw [show filter_by_hot_region ((List.range 22).map fun i => { address := i }) [5, 6, 20] 2
      = ([(3, 9), (18, 22)], []) from by decide]
  rfl

/-- Claim C4 witness. -/
theorem c4_witness :
    Function.Injective (fun i : Nat => i) ∧
    filter_by_hot_region ((List.range 22).map fun i => ({ address := i } : Instruction))
      [5, 6, 20] 2 = ([(3, 9), (18, 22)], []) := by
  refine ⟨fun a b h => h, ?_⟩
  exact c4_hot_regions (fun i => i) fun a b h => h

set_option maxRecDepth 4000 in
/-- Claim C5 is right about the intent and the code is wrong: a hot
address matched at instruction index 0 opens a region with `begin = 0`,
but the source tests the open marker with `if begin`, which treats `0`
like `None`; the region is never closed and never emitted, so the
matched hot address (removed from the set, hence no leftover warning) is
in no returned region. -/
theorem c5_zero_index_bug :
    filter_by_hot_region hotZeroInstructions [0] 2 = ([], []) := by
  decide

/-- `lookupAssoc` on a cons cell. -/
theorem lookupAssoc_cons {α : Type} (p : Nat × α) (ps : List (Nat × α)) (k : Nat) :
    lookupAssoc (p :: ps) k = if p.1 == k then some p.2 else lookupAssoc ps k := by
  unfold lookupAssoc
  cases h : p.1 == k <;> simp [List.find?, h]

/-- The weight recorded at `k` after one merge step. -/
theorem lookupAssoc_mergeStep (acc : List (Nat × PerfEvent)) (ev : PerfEvent) (k : Nat) :
    lookupAssoc (mergeStep acc ev) k =
      if k = ev.pc then
        match lookupAssoc acc k with
        | some e => some { e with period := e.period + ev.period }
        | none => some ev
      else lookupAssoc acc k := by
  induction acc with
  | nil =>
      show lookupAssoc [(ev.pc, ev)] k = _
      by_cases h : k = ev.pc
      · subst h
        rw [if_pos rfl, lookupAssoc_cons]
        simp [lookupAssoc, List.find?]
      · rw [if_neg h, lookupAssoc_cons]
        have hb : (ev.pc == k) = false := by
          simp only [beq_eq_false_iff_ne, ne_eq]
          exact Ne.symm h
        simp [hb]
  | cons p ps ih =>
      show lookupAssoc
        (if p.1 == ev.pc then (p.1, { p.2 with period := p.2.period + ev.period }) :: ps
         else p :: mergeStep ps ev) k = _
      by_cases hp : p.1 = ev.pc
      · rw [if_pos (by simpa using hp), lookupAssoc_cons, lookupAssoc_cons]
        by_cases hk : k = ev.pc
        · have hb : (p.1 == k) = true := by simp [hp, hk]
          rw [if_pos hk]
          simp [hb]
        · have hb : (p.1 == k) = false := by
            simp only [beq_eq_false_iff_ne, ne_eq, hp]
            exact Ne.symm hk
          rw [if_neg hk]
          simp [hb]
      · rw [if_neg (by simpa using hp), lookupAssoc_cons, ih, lookupAssoc_cons]
        by_cases hk : k = ev.pc
        · have hb : (p.1 == k) = false := by
            simp only [beq_eq_false_iff_ne, ne_eq, hk]
            exact hp
          rw [if_pos hk, if_pos hk]
          simp [hb]
        · rw [if_neg hk, if_neg hk]

/-- `sumPeriods` on a cons cell. -/
theorem sumPeriods_cons (ev : PerfEvent) (evs : List PerfEvent) (k : Nat) :
    sumPeriods (ev :: evs) k =
      if ev.pc == k then ev.period + sumPeriods evs k else sumPeriods evs k := by
  unfold sumPeriods
  cases h : ev.pc == k <;> simp [List.filter_cons, h]

/-- The weight recorded at `k` after folding the whole event list: an
existing entry has gained the sum of the weights at `k`; a fresh key
holds the first event at `k` with the summed weight; an unseen key is
absent. -/
theorem lookupAssoc_foldl_mergeStep (events : List PerfEvent) :
    ∀ (acc : List (Nat × PerfEvent)) (k : Nat),
    lookupAssoc (events.foldl mergeStep acc) k =
      match lookupAssoc acc k with
      | some e => some { e with period := e.period + sumPeriods events k }
      | none =>
        match events.find? fun ev => ev.pc == k with
        | some e0 => some { e0 with period := sumPeriods events k }
        | none => none := by
  induction events with
  | nil =>
      intro acc k
      cases h : lookupAssoc acc k <;> simp [h, sumPeriods, List.find?]
  | cons ev evs ih =>
      intro acc k
      rw [List.foldl_cons, ih, lookupAssoc_mergeStep]
      by_cases hk : k = ev.pc
      · have hbeq : (ev.pc == k) = true := by simp [hk]
        cases hacc : lookupAssoc acc k with
        | some e => simp [hacc, hk, sumPeriods_cons, hbeq, List.find?, Nat.add_assoc]
        | none => simp [hacc, hk, sumPeriods_cons, hbeq, List.find?]
      · have hbeq : (ev.pc == k) = false := by
          simp only [beq_eq_false_iff_ne, ne_eq]
          exact fun hh => hk hh.symm
        cases hacc : lookupAssoc acc k with
        | some e => simp [hacc, hk, sumPeriods_cons, hbeq, List.find?]
        | none => simp [hacc, hk, sumPeriods_cons, hbeq, List.find?]

/-- `mergeStep` on a nil accumulator. -/
theorem mergeStep_nil (ev : PerfEvent) : mergeStep [] ev = [(ev.pc, ev)] := rfl

/-- `mergeStep` on a cons accumulator. -/
theorem mergeStep_cons (p : Nat × PerfEvent) (ps : List (Nat × PerfEvent)) (ev : PerfEvent) :
    mergeStep (p :: ps) ev =
      if p.1 == ev.pc then (p.1, { p.2 with period := p.2.period + ev.period }) :: ps
      else p :: mergeStep ps ev := rfl

/-- Keys after one merge step: unchanged if the pc is present, appended
otherwise. -/
theorem keys_mergeStep (acc : List (Nat × PerfEvent)) (ev : PerfEvent) (k : Nat) :
    (k ∈ (mergeStep acc ev).map Prod.fst) ↔ (k ∈ acc.map Prod.fst ∨ k = ev.pc) := by
  induction acc with
  | nil => simp [mergeStep_nil]
  | cons p ps ih =>
      rw [mergeStep_cons]
      by_cases hp : p.1 = ev.pc
      · rw [if_pos (by simpa using hp)]
        simp only [List.map_cons, List.mem_cons]
        constructor
        · rintro (h | h)
          · exact Or.inl (Or.inl h)
          · exact Or.inl (Or.inr h)
        · rintro ((h | h) | h)
          · exact Or.inl h
          · exact Or.inr h
          · exact Or.inl (h ▸ hp.symm)
      · rw [if_neg (by simpa using hp)]
        simp only [List.map_cons, List.mem_cons, ih]
        tauto

/-- The stored event of every entry carries the entry's key as its pc. -/
theorem pckey_mergeStep (acc : List (Nat × PerfEvent)) (ev : PerfEvent)
    (h : ∀ p ∈ acc, (p : Nat × PerfEvent).2.pc = p.1) :
    ∀ p ∈ mergeStep acc ev, (p : Nat × PerfEvent).2.pc = p.1 := by
  induction acc with
  | nil =>
      intro p hp
      rw [mergeStep_nil] at hp
      simp only [List.mem_singleton] at hp
      subst hp; rfl
  | cons q qs ih =>
      intro p hp
      have hq := h q (by simp)
      have hqs : ∀ r ∈ qs, (r : Nat × PerfEvent).2.pc = r.1 :=
        fun r hr => h r (List.mem_cons_of_mem q hr)
      rw [mergeStep_cons] at hp
      by_cases hb : q.1 = ev.pc
      · rw [if_pos (by simpa using hb)] at hp
        rcases List.mem_cons.mp hp with h1 | h1
        · subst h1; exact hq
        · exact hqs p h1
      · rw [if_neg (by simpa using hb)] at hp
        rcases List.mem_cons.mp hp with h1 | h1
        · subst h1; exact hq
        · exact ih hqs p h1

/-- Keys stay duplicate-free across a merge step. -/
theorem nodup_keys_mergeStep (acc : List (Nat × PerfEvent)) (ev : PerfEvent)
    (h : (acc.map Prod.fst).Nodup) : ((mergeStep acc ev).map Prod.fst).Nodup := by
  induction acc with
  | nil => simp [mergeStep_nil]
  | cons p ps ih =>
      rw [List.map_cons, List.nodup_cons] at h
      rw [mergeStep_cons]
      by_cases hb : p.1 = ev.pc
      · rw [if_pos (by simpa using hb)]
        rw [List.map_cons, List.nodup_cons]
        exact ⟨h.1, h.2⟩
      · rw [if_neg (by simpa using hb)]
        rw [List.map_cons, List.nodup_cons]
        refine ⟨?_, ih h.2⟩
        intro hmem
        rcases (keys_mergeStep ps ev p.1).mp hmem with h1 | h1
        · exact h.1 h1
        · exact hb h1

/-- Keys of the full fold: duplicate-free, the stored events carry their
keys as pcs, and the keys are exactly the pcs seen. -/
theorem foldl_mergeStep_invariants (events : List PerfEvent) :
    ∀ acc : List (Nat × PerfEvent),
      (acc.map Prod.fst).Nodup →
      (∀ p ∈ acc, (p : Nat × PerfEvent).2.pc = p.1) →
      (((events.foldl mergeStep acc).map Prod.fst).Nodup
        ∧ (∀ p ∈ events.foldl mergeStep acc, (p : Nat × PerfEvent).2.pc = p.1)
        ∧ ∀ k : Nat, (k ∈ (events.foldl mergeStep acc).map Prod.fst)
            ↔ (k ∈ acc.map Prod.fst ∨ k ∈ events.map fun e => e.pc)) := by
  induction events with
  | nil =>
      intro acc h1 h2
      refine ⟨h1, h2, fun k => ?_⟩
      simp
  | cons ev evs ih =>
      intro acc h1 h2
      rw [List.foldl_cons]
      obtain ⟨g1, g2, g3⟩ := ih (mergeStep acc ev) (nodup_keys_mergeStep acc ev h1)
        (pckey_mergeStep acc ev h2)
      refine ⟨g1, g2, fun k => ?_⟩
      rw [g3 k, keys_mergeStep]
      simp only [List.map_cons, List.mem_cons]
      tauto

/-- In a key-duplicate-free association list, membership determines the
lookup. -/
theorem lookupAssoc_eq_some_of_mem (m : List (Nat × PerfEvent))
    (h : (m.map Prod.fst).Nodup) (p : Nat × PerfEvent) (hp : p ∈ m) :
    lookupAssoc m p.1 = some p.2 := by
  induction m with
  | nil => cases hp
  | cons q qs ih =>
      rw [List.map_cons, List.nodup_cons] at h
      rw [lookupAssoc_cons]
      rcases List.mem_cons.mp hp with h1 | h1
      · subst h1; simp
      · have hne : (q.1 == p.1) = false := by
          simp only [beq_eq_false_iff_ne, ne_eq]
          intro he
          exact h.1 (he ▸ List.mem_map_of_mem Prod.fst h1)
        rw [hne]
        exact ih h.2 h1

/-- Every event built by the sample-line parser carries `count = 1`
(`PerfEvent.__init__` sets `self.samples = 1`), so the whole decoded
event list satisfies the premise of the merge theorem below. -/
theorem parsePerfLines_samples (lines : List String) :
    ∀ evs : List PerfEvent, parsePerfLines lines = .ok evs →
    ∀ e ∈ evs, e.samples = 1 := by
  induction lines with
  | nil =>
      intro evs h e he
      cases h
      cases he
  | cons l ls ih =>
      intro evs h e he
      unfold parsePerfLines at h
      revert h
      cases hp : parsePerfLine (pyStrip l.data) with
      | error e2 => intro h; cases h
      | ok ev =>
          dsimp only
          cases hr : parsePerfLines ls with
          | error e2 => intro h; cases h
          | ok evs2 =>
              intro h
              cases h
              rcases List.mem_cons.mp he with h1 | h1
              · subst h1
                unfold parsePerfLine at hp
                revert hp
                cases rmatchSeg perfPattern (pyStrip l.data) with
                | none => intro hp; cases hp
                | some segs =>
                    dsimp only
                    split
                    · intro hp; cases hp
                    · intro hp
                      cases hp
                      rfl
              · exact ih evs2 hr e h1

/-- Claim C6: merging groups events by address — the merged list has one
event per distinct raw address, its weight is the sum of the group's
weights, its count (`samples`) stays 1 when the raw events are decoder
output (each raw count is 1), and the raw (pre-merge) list is returned
unchanged. -/
theorem c6_merge_groups (events : List PerfEvent)
    (h1 : ∀ e ∈ events, e.samples = 1) :
    (merge_perf_events events).2 = events ∧
    ((merge_perf_events events).1.map fun e => e.pc).Nodup ∧
    (∀ k : Nat, (k ∈ (merge_perf_events events).1.map fun e => e.pc)
        ↔ (k ∈ events.map fun e => e.pc)) ∧
    ∀ e ∈ (merge_perf_events events).1,
      e.period = sumPeriods events e.pc ∧ e.samples = 1 := by
  obtain ⟨g1, g2, g3⟩ :=
    foldl_mergeStep_invariants events [] (by simp) (by simp)
  have hmap : (merge_perf_events events).1.map (fun e => e.pc)
      = (events.foldl mergeStep []).map Prod.fst := by
    show ((events.foldl mergeStep []).map Prod.snd).map (fun e => e.pc) = _
    rw [List.map_map]
    exact List.map_congr_left fun p hp => g2 p hp
  refine ⟨rfl, ?_, ?_, ?_⟩
  · rw [hmap]; exact g1
  · intro k
    rw [hmap, g3 k]
    simp
  · intro e he
    obtain ⟨p, hp, hpe⟩ := List.mem_map.mp he
    have hkey := g2 p hp
    have hlook := lookupAssoc_eq_some_of_mem _ g1 p hp
    rw [lookupAssoc_foldl_mergeStep events [] p.1] at hlook
    have hnil : lookupAssoc [] p.1 = (none : Option PerfEvent) := rfl
    rw [hnil] at hlook
    cases hf : events.find? fun ev => ev.pc == p.1 with
    | none => rw [hf] at hlook; cases hlook
    | some e0 =>
        rw [hf] at hlook
        have he0 : p.2 = { e0 with period := sumPeriods events p.1 } :=
          (Option.some.injEq _ _).mp hlook.symm
        have hmem0 : e0 ∈ events := List.mem_of_find?_eq_some hf
        subst hpe
        rw [he0]
        refine ⟨?_, ?_⟩
        · show sumPeriods events p.1 = sumPeriods events _
          have : ({ e0 with period := sumPeriods events p.1 } : PerfEvent).pc = e0.pc := rfl
          rw [this]
          have : e0.pc = p.1 := by
            have := List.find?_some hf
            simpa using this
          rw [this]
        · show e0.samples = 1
          exact h1 e0 hmem0

/-- Claim C6 witness: merging two raw events at one address with weights
100 and 50 yields one merged event of weight 150 and count 1, and the
raw list still holds both original records. -/
theorem c6_witness :
    (∀ e ∈ [rawEventA, rawEventB], e.samples = 1) ∧
    (merge_perf_events [rawEventA, rawEventB]).2 = [rawEventA, rawEventB] ∧
    (merge_perf_events [rawEventA, rawEventB]).1 = [{ rawEventA with period := 150 }] := by
  have h := c6_merge_groups [rawEventA, rawEventB] (by decide)
  exact ⟨by decide, h.1, by decide⟩

/-- A line parses exactly when `perfLineOk` accepts it. -/
theorem parsePerfLine_ok_iff (line : List Char) :
    exceptOk (parsePerfLine line) = perfLineOk line := by
  unfold parsePerfLine perfLineOk
  cases h : rmatchSeg perfPattern line with
  | none => rfl
  | some segs =>
      dsimp only
      cases hseg : segs.getD 5 [] with
      | nil => simp [exceptOk]
      | cons c cs => simp [exceptOk]

/-- Claim C7 counterexample: a blank line (here a bare newline, which
`strip` reduces to the empty string) is not a non-matching *non-blank*
line, yet sample-stream decoding fails on it — the empty string does not
match the record grammar and the decoder has no blank-line case. -/
theorem c7_counterexample :
    exceptOk (read_perf_output ["\n"]) = false ∧
    (pyStrip ("\n" : String).data).isEmpty = true := by
  exact ⟨by decide, by decide⟩

/-- Claim C7 (amended): sample-stream decoding fails with a fatal parse
error if and only if some line, after stripping, fails to parse as a
record — i.e. does not match the record grammar with a non-empty period
field; blank lines strip to the empty string and are therefore also
fatal.  An empty sample stream is accepted and yields
`total_samples = 0` and `total_period = 0`. -/
theorem c7_parse_errors (lines : List String) :
    (exceptOk (read_perf_output lines) = lines.all fun l => perfLineOk (pyStrip l.data)) ∧
    read_perf_output [] = .ok ([], 0, 0) := by
  refine ⟨?_, rfl⟩
  induction lines with
  | nil => rfl
  | cons l ls ih =>
      unfold read_perf_output at ih ⊢
      rw [List.all_cons]
      show exceptOk ((parsePerfLines (l :: ls)).map _) = _
      unfold parsePerfLines
      rw [← parsePerfLine_ok_iff (pyStrip l.data)]
      cases h : parsePerfLine (pyStrip l.data) with
      | error e => simp [exceptOk, Except.map]
      | ok ev =>
          simp only [exceptOk, Bool.true_and]
          cases hr : parsePerfLines ls with
          | error e2 =>
              rw [hr] at ih
              simpa [exceptOk, Except.map, hr] using ih
          | ok evs =>
              rw [hr] at ih
              simpa [exceptOk, Except.map, hr] using ih

/-- Unfolding equation of `readRecords` for a dynamic-code record. -/
theorem readRecords_dyn (st : GeneratedAssembly) (ts : ℚ) (name : String)
    (addr : Nat) (code : List Nat) (rest : List TraceRecord) :
    readRecords st (.dynamicCode ts name addr code :: rest) =
      readRecords
        (st.add
          { name := name, timestamp := ts, code_addr := addr,
            code_size := code.length, code := code, generated := true })
        rest := rfl

/-- Unfolding equation of `readRecords` for a method-load record with at
least one method. -/
theorem readRecords_load (st : GeneratedAssembly) (ts : ℚ) (addr : Nat)
    (code : List Nat) (m : Method) (ms : List Method) (debug : List DebugInfo)
    (rest : List TraceRecord) :
    readRecords st (.methodLoad ts addr code (m :: ms) debug :: rest) =
      readRecords
        (st.add
          { name := m.format_name, timestamp := ts, code_addr := addr,
            code_size := code.length, code := code, generated := false,
            debug_info := some debug, methods := some (m :: ms) })
        rest := rfl

/-- Unfolding equation of `readRecords` for a method-unload record. -/
theorem readRecords_unload (st : GeneratedAssembly) (ts : ℚ) (addr : Nat)
    (rest : List TraceRecord) :
    readRecords st (.methodUnload ts addr :: rest) =
      match lookupAssoc st.code_by_address addr with
      | none => .error (keyErrorMessage addr)
      | some i =>
          readRecords
            { st with
              code_info :=
                st.code_info.set i ((st.code_info.getD i default).set_unload_time ts) }
            rest := rfl

/-- Record decoding processes a concatenation sequentially. -/
theorem readRecords_append (xs : List TraceRecord) :
    ∀ (st : GeneratedAssembly) (ys : List TraceRecord),
    readRecords st (xs ++ ys) =
      match readRecords st xs with
      | .ok st' => readRecords st' ys
      | .error e => .error e := by
  induction xs with
  | nil => intro st ys; rfl
  | cons r rs ih =>
      intro st ys
      cases r with
      | dynamicCode ts name addr code =>
          rw [List.cons_append, readRecords_dyn, readRecords_dyn, ih]
      | methodLoad ts addr code methods debug =>
          cases methods with
          | nil => rfl
          | cons m ms =>
              rw [List.cons_append, readRecords_load, readRecords_load, ih]
      | methodUnload ts addr =>
          rw [List.cons_append, readRecords_unload, readRecords_unload]
          cases lookupAssoc st.code_by_address addr with
          | none => rfl
          | some i =>
              dsimp only
              rw [ih]
      | unknownTag t => rfl

/-- Lookup after a `dictSet`. -/
theorem lookupAssoc_dictSet {α : Type} (m : List (Nat × α)) (k : Nat) (v : α) (a : Nat) :
    lookupAssoc (dictSet m k v) a = if a = k then some v else lookupAssoc m a := by
  induction m with
  | nil =>
      show lookupAssoc [(k, v)] a = _
      rw [lookupAssoc_cons]
      by_cases h : a = k
      · subst h; simp
      · have hb : (k == a) = false := by
          simp only [beq_eq_false_iff_ne, ne_eq]
          exact Ne.symm h
        simp [hb, h, lookupAssoc, List.find?]
  | cons p ps ih =>
      show lookupAssoc (if p.1 == k then (k, v) :: ps else p :: dictSet ps k v) a = _
      by_cases hp : p.1 = k
      · rw [if_pos (by simpa using hp), lookupAssoc_cons, lookupAssoc_cons]
        by_cases h : a = k
        · subst h; simp
        · have hb : (k == a) = false := by
            simp only [beq_eq_false_iff_ne, ne_eq]
            exact Ne.symm h
          have hb2 : (p.1 == a) = false := by
            simp only [beq_eq_false_iff_ne, ne_eq, hp]
            exact Ne.symm h
          simp [hb, hb2, h]
      · rw [if_neg (by simpa using hp), lookupAssoc_cons, lookupAssoc_cons, ih]
        by_cases h : a = p.1
        · have hb : (p.1 == a) = true := by simp [h]
          have hak : ¬a = k := fun hh => hp (h ▸ hh)
          simp [hb, hak]
        · have hb : (p.1 == a) = false := by
            simp only [beq_eq_false_iff_ne, ne_eq]
            exact Ne.symm h
          simp [hb]

/-- A base address never loaded stays absent from `code_by_address`. -/
theorem readRecords_lookup_none (recs : List TraceRecord) :
    ∀ (st st' : GeneratedAssembly) (addr : Nat),
    readRecords st recs = .ok st' →
    lookupAssoc st.code_by_address addr = none →
    addr ∉ loadAddresses recs →
    lookupAssoc st'.code_by_address addr = none := by
  induction recs with
  | nil =>
      intro st st' addr h hnone _
      cases h
      exact hnone
  | cons r rs ih =>
      intro st st' addr h hnone hmem
      cases r with
      | dynamicCode ts name raddr code =>
          rw [readRecords_dyn] at h
          rw [show loadAddresses (TraceRecord.dynamicCode ts name raddr code :: rs)
              = raddr :: loadAddresses rs from rfl, List.mem_cons] at hmem
          push_neg at hmem
          refine ih _ _ _ h ?_ hmem.2
          show lookupAssoc (dictSet st.code_by_address raddr st.code_info.length) addr = none
          rw [lookupAssoc_dictSet, if_neg hmem.1]
          exact hnone
      | methodLoad ts raddr code methods debug =>
          cases methods with
          | nil => cases h
          | cons m ms =>
              rw [readRecords_load] at h
              rw [show loadAddresses (TraceRecord.methodLoad ts raddr code (m :: ms) debug :: rs)
                  = raddr :: loadAddresses rs from rfl, List.mem_cons] at hmem
              push_neg at hmem
              refine ih _ _ _ h ?_ hmem.2
              show lookupAssoc (dictSet st.code_by_address raddr st.code_info.length) addr = none
              rw [lookupAssoc_dictSet, if_neg hmem.1]
              exact hnone
      | methodUnload ts raddr =>
          rw [readRecords_unload] at h
          rw [show loadAddresses (TraceRecord.methodUnload ts raddr :: rs)
              = loadAddresses rs from rfl] at hmem
          revert h
          cases lookupAssoc st.code_by_address raddr with
          | none => intro h; cases h
          | some i =>
              intro h
              exact ih _ _ _ h hnone hmem
      | unknownTag t => cases h

/-- Every address accepted by a well-formed stream stays resolvable, so
decoding succeeds. -/
theorem readRecords_ok_of_wellFormed (recs : List TraceRecord) :
    ∀ (loaded : List Nat) (st : GeneratedAssembly),
    (∀ a ∈ loaded, (lookupAssoc st.code_by_address a).isSome = true) →
    wellFormedStream loaded recs = true →
    exceptOk (readRecords st recs) = true := by
  induction recs with
  | nil => intro loaded st _ _; rfl
  | cons r rs ih =>
      intro loaded st hinv hwf
      cases r with
      | dynamicCode ts name raddr code =>
          rw [readRecords_dyn]
          refine ih (raddr :: loaded) _ ?_ hwf
          intro a ha
          show (lookupAssoc (dictSet st.code_by_address raddr st.code_info.length) a).isSome = true
          rw [lookupAssoc_dictSet]
          by_cases h : a = raddr
          · rw [if_pos h]; rfl
          · rw [if_neg h]
            exact hinv a (by
              rcases List.mem_cons.mp ha with h1 | h1
              · exact absurd h1 h
              · exact h1)
      | methodLoad ts raddr code methods debug =>
          cases methods with
          | nil => simp [wellFormedStream] at hwf
          | cons m ms =>
              rw [readRecords_load]
              have hwf' : wellFormedStream (raddr :: loaded) rs = true := by
                simpa [wellFormedStream] using hwf
              refine ih (raddr :: loaded) _ ?_ hwf'
              intro a ha
              show (lookupAssoc (dictSet st.code_by_address raddr st.code_info.length) a).isSome = true
              rw [lookupAssoc_dictSet]
              by_cases h : a = raddr
              · rw [if_pos h]; rfl
              · rw [if_neg h]
                exact hinv a (by
                  rcases List.mem_cons.mp ha with h1 | h1
                  · exact absurd h1 h
                  · exact h1)
      | methodUnload ts raddr =>
          rw [readRecords_unload]
          have hwf2 : raddr ∈ loaded ∧ wellFormedStream loaded rs = true := by
            simpa [wellFormedStream] using hwf
          have hsome := hinv raddr hwf2.1
          cases hl : lookupAssoc st.code_by_address raddr with
          | none => rw [hl] at hsome; cases hsome
          | some i =>
              refine ih loaded _ ?_ hwf2.2
              intro a ha
              exact hinv a ha
      | unknownTag t =>
          exact absurd hwf (by simp [wellFormedStream])

/-- Claim C8: an unload record whose base address matches no previously
loaded region aborts decoding at that record (Python raises `KeyError`
at `self.code_by_address[code_addr]`; the `if not nmethod` guard after
it is unreachable), regardless of what follows; and a well-formed stream
— every unload address previously loaded, method lists non-empty, no
unknown tags — decodes without aborting. -/
theorem c8_unload_aborts :
    (∀ (pre rest : List TraceRecord) (ts : ℚ) (addr : Nat) (st : GeneratedAssembly),
        readRecords emptyAssembly pre = .ok st →
        addr ∉ loadAddresses pre →
        readRecords emptyAssembly (pre ++ .methodUnload ts addr :: rest)
          = .error (keyErrorMessage addr))
    ∧ (∀ recs : List TraceRecord,
        wellFormedStream [] recs = true →
        exceptOk (readRecords emptyAssembly recs) = true) := by
  constructor
  · intro pre rest ts addr st h hmem
    rw [readRecords_append, h]
    dsimp only
    rw [readRecords_unload]
    have hnone : lookupAssoc st.code_by_address addr = none :=
      readRecords_lookup_none pre emptyAssembly st addr h rfl hmem
    rw [hnone]
  · intro recs hwf
    exact readRecords_ok_of_wellFormed recs [] emptyAssembly (by simp) hwf

/-- Claim C8 witness: decoding a lone unload record aborts, while a
dynamic-code load followed by an unload of the same address decodes. -/
theorem c8_witness :
    readRecords emptyAssembly [.methodUnload 1 4096] = .error (keyErrorMessage 4096) ∧
    exceptOk (readRecords emptyAssembly
      [.dynamicCode 1 "S" 4096 [0, 0], .methodUnload 2 4096]) = true := by
  constructor
  · exact c8_unload_aborts.1 [] [] 1 4096 emptyAssembly rfl (by decide)
  · exact c8_unload_aborts.2 _ (by decide)

/-- Equality of `Except` results is decidable componentwise. -/
instance {ε α : Type} [DecidableEq ε] [DecidableEq α] : DecidableEq (Except ε α) :=
  fun a b =>
    match a, b with
    | .ok x, .ok y =>
        if h : x = y then .isTrue (by rw [h])
        else .isFalse (by intro hh; cases hh; exact h rfl)
    | .error x, .error y =>
        if h : x = y then .isTrue (by rw [h])
        else .isFalse (by intro hh; cases hh; exact h rfl)
    | .ok _, .error _ => .isFalse (by intro hh; cases hh)
    | .error _, .ok _ => .isFalse (by intro hh; cases hh)

/-- `find?` only depends on the predicate's values on the list. -/
theorem find?_congruent {α : Type} (l : List α) (p q : α → Bool)
    (h : ∀ a ∈ l, p a = q a) : l.find? p = l.find? q := by
  induction l with
  | nil => rfl
  | cons a as ih =>
      have ha := h a (List.mem_cons_self a as)
      cases hq : q a with
      | true =>
          rw [List.find?_cons_of_pos _ (ha.trans hq), List.find?_cons_of_pos _ hq]
      | false =>
          rw [List.find?_cons_of_neg _ (by simp [ha, hq]), List.find?_cons_of_neg _ (by simp [hq])]
          exact ih fun b hb => h b (List.mem_cons_of_mem a hb)

/-- Every candidate produced by `entriesFor` spatially contains the pc. -/
theorem mem_entriesFor (regions : List CompiledCodeInfo) (m : List (Nat × List Nat))
    (pc : Nat) :
    ∀ i ∈ entriesFor regions m pc, (regions.getD i default).contains (pc : Int) = true := by
  unfold entriesFor
  cases h : lookupAssoc m (round_down pc) with
  | none => dsimp only; intro i hi; cases hi
  | some es =>
      dsimp only
      intro i hi
      exact (List.mem_filter.mp hi).2

/-- On a spatial match, the timed `contains` is the spec's exact-match
predicate. -/
theorem contains_some_eq_specExact (c : CompiledCodeInfo) (pc : Int) (ts : ℚ)
    (h : c.contains pc = true) :
    c.contains pc (some ts) = specExactMatch c ts := by
  have hrange : (c.code_addr : Int) ≤ pc ∧ pc < (c.code_end : Int) := by
    have h2 := contains_none_eq_range c pc
    rw [h] at h2
    exact of_decide_eq_true h2.symm
  unfold CompiledCodeInfo.contains specExactMatch CompiledCodeInfo.contains_timestamp
  rw [if_pos hrange]
  cases hg : c.generated with
  | true => simp
  | false =>
      simp only [Bool.false_or, if_neg (by simp : ¬False)]
      cases hu : c.unload_time with
      | none => simp [ge_iff_le]
      | some u => simp [ge_iff_le, gt_iff_lt]

/-- The code's fallback filter is the spec's not-yet-unloaded
predicate. -/
theorem notUnloaded_pred_eq (c : CompiledCodeInfo) (ts : ℚ) :
    (match c.unload_time with
     | none => true
     | some u => decide (u > ts)) = specNotUnloaded c ts := by
  unfold specNotUnloaded
  cases c.unload_time with
  | none => rfl
  | some u => simp [gt_iff_lt]

/-- `findPolicy` on a single candidate. -/
theorem findPolicy_singleton (regions : List CompiledCodeInfo) (i : Nat)
    (pc : Nat) (ts : ℚ) :
    findPolicy regions [i] pc ts = .ok (some i) := rfl

/-- `findPolicy` on two or more candidates. -/
theorem findPolicy_multi (regions : List CompiledCodeInfo) (entries : List Nat)
    (pc : Nat) (ts : ℚ) (h : 2 ≤ entries.length) :
    findPolicy regions entries pc ts =
      match entries.find? fun i => (regions.getD i default).contains (pc : Int) (some ts) with
      | some i => .ok (some i)
      | none =>
        match entries.find? fun i =>
            match (regions.getD i default).unload_time with
            | none => true
            | some u => decide (u > ts) with
        | some i => .ok (some i)
        | none => .ok none := by
  cases entries with
  | nil => simp at h
  | cons a t1 =>
      cases t1 with
      | nil => simp at h
      | cons b t =>
          unfold findPolicy
          rw [if_neg (by simp), if_neg (by simp)]

/-- Claim C1: looking up an address/timestamp on the built index — if
exactly one region in the address's bucket contains the address, it is
returned for every timestamp (time is not consulted); with several
candidates, the first exact time-window match (stubs always match;
non-stubs per load/unload window) is returned, else the first candidate
in load order whose `unload_time` is unset or past the timestamp, else
none. -/
theorem c1_find_lookup_policy (regions : List CompiledCodeInfo) (pc : Nat) (ts : ℚ) :
    (∀ i : Nat, entriesFor regions (build_search_map regions) pc = [i] →
        ((mkAssembly regions).find pc ts).1 = .ok (some (regions.getD i default)))
    ∧ (2 ≤ (entriesFor regions (build_search_map regions) pc).length →
        ((mkAssembly regions).find pc ts).1 = .ok
          ((((entriesFor regions (build_search_map regions) pc).find? fun i =>
                specExactMatch (regions.getD i default) ts).orElse fun _ =>
              (entriesFor regions (build_search_map regions) pc).find? fun i =>
                specNotUnloaded (regions.getD i default) ts).map
            fun i => regions.getD i default)) := by
  have hfind : ((mkAssembly regions).find pc ts).1
      = (findPolicy regions (entriesFor regions (build_search_map regions) pc) pc ts).map
          fun o => o.map fun i => regions.getD i default := rfl
  constructor
  · intro i h
    rw [hfind, h, findPolicy_singleton]
    rfl
  · intro h
    rw [hfind, findPolicy_multi regions _ pc ts h]
    have hmem := mem_entriesFor regions (build_search_map regions) pc
    have h1 : (entriesFor regions (build_search_map regions) pc).find?
          (fun i => (regions.getD i default).contains (pc : Int) (some ts))
        = (entriesFor regions (build_search_map regions) pc).find?
          fun i => specExactMatch (regions.getD i default) ts :=
      find?_congruent _ _ _ fun i hi => contains_some_eq_specExact _ _ _ (hmem i hi)
    have h2 : (entriesFor regions (build_search_map regions) pc).find?
          (fun i => match (regions.getD i default).unload_time with
                    | none => true
                    | some u => decide (u > ts))
        = (entriesFor regions (build_search_map regions) pc).find?
          fun i => specNotUnloaded (regions.getD i default) ts :=
      find?_congruent _ _ _ fun i _ => notUnloaded_pred_eq _ ts
    rw [h1, h2]
    cases hx : (entriesFor regions (build_search_map regions) pc).find?
        fun i => specExactMatch (regions.getD i default) ts with
    | some i => rfl
    | none =>
        cases hy : (entriesFor regions (build_search_map regions) pc).find?
            fun i => specNotUnloaded (regions.getD i default) ts with
        | some i => rfl
        | none => rfl

/-- Claim C1 witness: a single-candidate bucket returns its region, and
with two same-range candidates (no exact match at the sample timestamp)
the first in load order with no unload time is returned. -/
theorem c1_witness :
    entriesFor [attrRegion] (build_search_map [attrRegion]) 4100 = [0] ∧
    ((mkAssembly [attrRegion]).find 4100 2).1 = .ok (some attrRegion) ∧
    2 ≤ (entriesFor [orderA, orderB] (build_search_map [orderA, orderB]) 4100).length ∧
    ((mkAssembly [orderA, orderB]).find 4100 5).1 = .ok (some orderA) := by
  have h1 := (c1_find_lookup_policy [attrRegion] 4100 2).1 0 (by decide)
  have h2 := (c1_find_lookup_policy [orderA, orderB] 4100 5).2 (by decide)
  refine ⟨by decide, ?_, by decide, ?_⟩
  · exact h1
  · rw [h2]
    decide

/-- Unfolding equation of the attribution loop on a cons cell. -/
theorem attrGo_cons (st : GeneratedAssembly) (lo hi : Nat) (ev : PerfEvent)
    (evs : List PerfEvent) (a u m : Nat) :
    attrGo st lo hi (ev :: evs) a u m =
      (if lo ≤ ev.pc ∧ ev.pc < hi then
        match add_event st ev with
        | .error e => .error e
        | .ok (hit, ev', st') =>
            (attrGo st' lo hi evs (if hit then a + 1 else a) u
                (if hit then m else m + 1)).map
              fun r => { r with events := ev' :: r.events }
      else if ev.symbol == "[Unknown]" then
        (attrGo st lo hi evs a (u + 1) m).map fun r => { r with events := ev :: r.events }
      else
        (attrGo st lo hi evs a u m).map fun r => { r with events := ev :: r.events }) := rfl

/-- Claim C9: attribution of a merged event inside the known code range —
on a successful lookup the event is re-tagged to the region's name with
the stub/JIT module marker and appended to that region (adding its
weight and count to the region's totals); on a failed lookup the event
and state are unchanged and only `missing` is bumped; after all events
the non-fatal warning fires exactly when `missing > 50`. -/
theorem c9_attribute_events :
    (∀ (st st₁ : GeneratedAssembly) (ev : PerfEvent) (i : Nat),
        find_core st ev.pc ev.timestamp = (.ok (some i), st₁) →
        add_event st ev = .ok (true,
          { ev with
              dso := if (st₁.code_info.getD i default).generated then "[Generated]"
                     else "[JIT]",
              symbol := (st₁.code_info.getD i default).name },
          { st₁ with
              code_info := st₁.code_info.set i
                ((st₁.code_info.getD i default).add
                  { ev with
                      dso := if (st₁.code_info.getD i default).generated then "[Generated]"
                             else "[JIT]",
                      symbol := (st₁.code_info.getD i default).name }) }))
    ∧ (∀ (c : CompiledCodeInfo) (e : PerfEvent),
        (c.add e).events = c.events ++ [e] ∧
        (c.add e).total_period = c.total_period + e.period ∧
        (c.add e).total_samples = c.total_samples + e.samples)
    ∧ (∀ (st st₁ : GeneratedAssembly) (ev : PerfEvent),
        find_core st ev.pc ev.timestamp = (.ok none, st₁) →
        add_event st ev = .ok (false, ev, st₁))
    ∧ (∀ (st st' : GeneratedAssembly) (lo hi : Nat) (ev ev2 : PerfEvent)
        (evs : List PerfEvent) (a u m : Nat) (hit : Bool),
        lo ≤ ev.pc → ev.pc < hi →
        add_event st ev = .ok (hit, ev2, st') →
        attrGo st lo hi (ev :: evs) a u m =
          (attrGo st' lo hi evs (if hit then a + 1 else a) u
              (if hit then m else m + 1)).map
            fun r => { r with events := ev2 :: r.events })
    ∧ (∀ (st : GeneratedAssembly) (evs : List PerfEvent) (out : AttributionResult),
        attribute_events st evs = .ok out →
        out.warn = decide (out.missing > 50)) := by
  refine ⟨?_, ?_, ?_, ?_, ?_⟩
  · intro st st₁ ev i h
    unfold add_event
    rw [h]
  · intro c e
    exact ⟨rfl, rfl, rfl⟩
  · intro st st₁ ev h
    unfold add_event
    rw [h]
  · intro st st' lo hi ev ev2 evs a u m hit hlo hhi hadd
    rw [attrGo_cons, if_pos ⟨hlo, hhi⟩, hadd]
  · intro st evs out h
    unfold attribute_events at h
    cases hlo : st.low_address with
    | none => rw [hlo] at h; cases h
    | some lo =>
        cases hhi : st.high_address with
        | none => rw [hlo, hhi] at h; cases h
        | some hi =>
            rw [hlo, hhi] at h
            dsimp only at h
            cases hr : attrGo st lo hi evs 0 0 0 with
            | error e => rw [hr] at h; cases h
            | ok r =>
                rw [hr] at h
                cases h
                rfl

/-- Claim C9 witness. -/
theorem c9_witness :
    add_event attrAssembly attrEvent = .ok (true, attrEventTagged,
      { attrAssemblyBuilt with code_info := [attrRegion.add attrEventTagged] }) ∧
    attrEmptyOutcome.warn = decide (attrEmptyOutcome.missing > 50) := by
  constructor
  · rw [c9_attribute_events.1 attrAssembly attrAssemblyBuilt attrEvent 0 (by decide)]
    decide
  · exact c9_attribute_events.2.2.2.2 attrAssembly [] attrEmptyOutcome (by decide)

/-- Claim C10: `top_methods` with no inclusion predicate sorts the
stored region list itself (Python's `entries` aliases `self.code_info`
and `entries.sort` reorders it in place): afterwards the stored list is
the stable descending-by-`total_period` sort of the old one — a
permutation, sorted, and in general no longer in load order, which a
subsequent lookup with a still-unbuilt bucket map observes (the
fallback's "first candidate in load order" changes). -/
theorem c10_top_methods_reorders :
    (∀ st : GeneratedAssembly,
        (top_methods st none).2.code_info = List.insertionSort periodGE st.code_info ∧
        (top_methods st none).1 = (top_methods st none).2.code_info ∧
        List.Sorted periodGE (top_methods st none).2.code_info ∧
        List.Perm (top_methods st none).2.code_info st.code_info)
    ∧ ∃ (st : GeneratedAssembly) (pc : Nat) (ts : ℚ),
        (top_methods st none).2.code_info ≠ st.code_info ∧
        (st.find pc ts).1 ≠ ((top_methods st none).2.find pc ts).1 := by
  constructor
  · intro st
    exact ⟨rfl, rfl, List.sorted_insertionSort periodGE st.code_info,
      List.perm_insertionSort periodGE st.code_info⟩
  · exact ⟨mkAssembly [orderA, orderB], 4100, 5, by decide, by decide⟩
